import Mathlib

/-!
Shallow embedding of the Modal Manager of `src/dist/royal.js` (class
`ModalManager`, lines 209-367).

Modelling decisions, each tied to a line of the source:

* The DOM element of a modal is reduced to the three presentation facts the
  manager reads or writes: the `active` class, the `show` class
  (field `showC` below, since `show` is reserved in Lean) and whether
  `style.display` is the string flex (lines 295-296, 306, 327, 330-331).
* The callbacks `onOpen`, `onClose` are modelled by their presence
  (`hasOnOpen`, `hasOnClose`); invocations are recorded in an event
  trace.  `beforeClose` is `Option Bool`: `none` means no callback,
  `some b` a callback returning `b` (line 322-324 tests
  `shouldClose === false`, so only a literal `false` vetoes).
* `document.body.style.overflow` is the Boolean `overflowHidden`
  (lines 298-300, 333-335).
* The two `setTimeout` bodies (line 305, 10ms, and line 329, 300ms)
  become explicit pending `Task`s; firing a task applies its body.
  The 300ms body is the settle phase of `close`, `closeSettle` below.
* The `Map` `this.modals` is an association list; `Map.set` replaces
  in place (`mset`), `Map.get` is `mget`, and mutating a fetched
  record element is `mupd` (sound because no entry is ever removed
  or replaced between a lookup and the mutation in the traces the
  claims quantify over; the library has no unregister).
* JavaScript truthiness of `this.activeModal` (line 282) and of
  `id || this.activeModal` (line 315) is `Option.isSome` /
  `Option.orElse`; the degenerate falsy empty-string id is not
  modelled (no registered id is empty in the scenarios considered).
* The open payload `data` (default `null`) is `Option Nat`.
-/

namespace Royal

/-- Presentation state of the element of a modal: the `active` class,
the `show` class, and whether `style.display` equals flex. -/
structure Elem where
  active : Bool
  showC : Bool
  displayFlex : Bool
deriving DecidableEq, Repr

/-- The `options` object stored per record by `register`
(lines 258-263). -/
structure Opts where
  hasOnOpen : Bool
  hasOnClose : Bool
  beforeClose : Option Bool
  closeOnOverlay : Bool
deriving DecidableEq, Repr

/-- One entry of `this.modals` (lines 254-264). -/
structure ModalRec where
  elem : Elem
  hasOverlay : Bool
  hasCloseBtn : Bool
  opts : Opts
deriving DecidableEq, Repr

/-- The own state of the manager (constructor, lines 210-218) together with
the one page-global it mutates, `document.body.style.overflow`. -/
structure MState where
  modals : List (String × ModalRec)
  activeModal : Option String
  queue : List (String × Option Nat)
  closeOnOverlay : Bool
  bodyScrollLock : Bool
  sequential : Bool
  overflowHidden : Bool
deriving DecidableEq, Repr

/-- Trace events: a callback invocation. -/
inductive Ev where
  | beforeCloseEv (id : String)
  | onOpenEv (id : String) (data : Option Nat)
  | onCloseEv (id : String)
deriving DecidableEq, Repr

/-- A pending `setTimeout` body: `showT id` is the 10ms timer of
`open` (lines 305-307), `settleT id silent` the 300ms timer of
`close` (lines 329-350). -/
inductive Task where
  | showT (id : String)
  | settleT (id : String) (silent : Bool)
deriving DecidableEq, Repr

/-- `this.modals.get id`. -/
def mget : List (String × ModalRec) → String → Option ModalRec
  | [], _ => none
  | (k, r) :: rest, id => if k = id then some r else mget rest id

/-- `this.modals.set id r` (replaces in place, appends if absent, as a
JavaScript `Map` does). -/
def mset : List (String × ModalRec) → String → ModalRec → List (String × ModalRec)
  | [], id, r => [(id, r)]
  | (k, r0) :: rest, id, r =>
      if k = id then (id, r) :: rest else (k, r0) :: mset rest id r

/-- Mutate the record stored under `id` in place (the JS code mutates
the fetched record object, which is the one held by the map). -/
def mupd (l : List (String × ModalRec)) (id : String) (f : ModalRec → ModalRec) :
    List (String × ModalRec) :=
  l.map fun p => if p.1 = id then (p.1, f p.2) else p

/-- classList.remove of `show` on the element (line 327). -/
def dropShow (r : ModalRec) : ModalRec :=
  { r with elem := { r.elem with showC := false } }

/-- classList.add of `show` on the element (line 306, the 10ms timer body). -/
def addShow (r : ModalRec) : ModalRec :=
  { r with elem := { r.elem with showC := true } }

/-- classList.add of `active` and `style.display = flex` (lines 295-296). -/
def addActive (r : ModalRec) : ModalRec :=
  { r with elem := { r.elem with active := true, displayFlex := true } }

/-- classList.remove of `active` and clearing of `style.display` (lines 330-331). -/
def dropActive (r : ModalRec) : ModalRec :=
  { r with elem := { r.elem with active := false, displayFlex := false } }

/-- `hasOtherActiveModals` (lines 360-366): counts registry entries
whose element carries the `active` class; the caller only asks whether
the count is positive. -/
def hasOtherActiveModals (s : MState) : Bool :=
  s.modals.any fun p => p.2.elem.active

/-- The per-record `closeOnOverlay` option computed at registration
(line 262): `options.closeOnOverlay !== false ? this.closeOnOverlay :
false`, with `none` standing for an absent (undefined) option. -/
def resolveCloseOnOverlay (mgrFlag : Bool) (o : Option Bool) : Bool :=
  if o ≠ some false then mgrFlag else false

/-- `register` (lines 250-279).  Besides the updated state it returns
whether the overlay click handler was wired to `close id`
(line 272: `if (overlay && this.closeOnOverlay)` - note the check
reads the manager-level flag, not the per-record option). -/
def register (s : MState) (id : String) (hasOverlay hasCloseBtn : Bool)
    (hasOnOpen hasOnClose : Bool) (beforeClose : Option Bool)
    (closeOnOverlay : Option Bool) (el : Elem) : MState × Bool :=
  ({ s with
      modals := mset s.modals id
        { elem := el, hasOverlay := hasOverlay, hasCloseBtn := hasCloseBtn
          opts :=
            { hasOnOpen := hasOnOpen, hasOnClose := hasOnClose
              beforeClose := beforeClose
              closeOnOverlay := resolveCloseOnOverlay s.closeOnOverlay closeOnOverlay } } },
   hasOverlay && s.closeOnOverlay)

/-- Synchronous part of `close` (lines 314-328 and the scheduling of
the 300ms timer at line 329).  Returns the new state, the callback
trace of this phase, and the tasks scheduled. -/
def close (s : MState) (idArg : Option String) (silent : Bool) :
    MState × List Ev × List Task :=
  match idArg.orElse fun _ => s.activeModal with
  | none => (s, [], [])
  | some modalId =>
    match mget s.modals modalId with
    | none => (s, [], [])
    | some modal =>
      let evs := if modal.opts.beforeClose.isSome && !silent
        then [Ev.beforeCloseEv modalId] else []
      if modal.opts.beforeClose = some false && !silent then
        (s, evs, [])
      else
        let m1 := mupd s.modals modalId dropShow
        ({ s with modals := m1 }, evs, [Task.settleT modalId silent])

/-- `open` (lines 281-312).  Scheduling of the 10ms `show` timer is
the returned `Task.showT`. -/
def openCall (s : MState) (id : String) (data : Option Nat) :
    MState × List Ev × List Task :=
  if s.sequential && s.activeModal.isSome then
    ({ s with queue := s.queue ++ [(id, data)] }, [], [])
  else
    match mget s.modals id with
    | none => (s, [], [])
    | some modal =>
      let handoff : MState × List Ev × List Task :=
        match s.activeModal with
        | some aid => if aid ≠ id then close s (some aid) true else (s, [], [])
        | none => (s, [], [])
      let s1 := handoff.1
      let m1 := mupd s1.modals id addActive
      let s2 := { s1 with modals := m1 }
      let s3 := if s.bodyScrollLock then { s2 with overflowHidden := true } else s2
      let s4 := { s3 with activeModal := some id }
      let evs2 := if modal.opts.hasOnOpen then [Ev.onOpenEv id data] else []
      (s4, handoff.2.1 ++ evs2, handoff.2.2 ++ [Task.showT id])

/-- Settle phase of `close`: the body of the 300ms timer
(lines 329-350).  `modalId` and `silent` are the values captured by
the closure. -/
def closeSettle (s : MState) (modalId : String) (silent : Bool) :
    MState × List Ev × List Task :=
  match mget s.modals modalId with
  | none => (s, [], [])
  | some modal =>
    let m1 := mupd s.modals modalId dropActive
    let s1 := { s with modals := m1 }
    let s2 := if s1.bodyScrollLock && !hasOtherActiveModals s1
      then { s1 with overflowHidden := false } else s1
    let s3 := if s2.activeModal = some modalId
      then { s2 with activeModal := none } else s2
    let evs1 := if !silent && modal.opts.hasOnClose then [Ev.onCloseEv modalId] else []
    match s3.queue with
    | [] => (s3, evs1, [])
    | (nid, ndata) :: rest =>
      let r := openCall { s3 with queue := rest } nid ndata
      (r.1, evs1 ++ r.2.1, r.2.2)

/-- `closeAll` (lines 353-358): a silent `close` on every registered
id in insertion order, then the queue is dropped outright. -/
def closeAll (s : MState) : MState × List Ev × List Task :=
  let folded := (s.modals.map Prod.fst).foldl
    (fun acc id =>
      let r := close acc.1 (some id) true
      (r.1, acc.2.1 ++ r.2.1, acc.2.2 ++ r.2.2))
    (s, ([] : List Ev), ([] : List Task))
  ({ folded.1 with queue := [] }, folded.2.1, folded.2.2)

/-- Fire one pending timer. -/
def runTask (s : MState) : Task → MState × List Ev × List Task
  | Task.showT id =>
      let m1 := mupd s.modals id addShow
      ({ s with modals := m1 }, [], [])
  | Task.settleT id silent => closeSettle s id silent

/-- A manager state together with its pending timers. -/
structure Sys where
  st : MState
  pending : List Task
deriving DecidableEq, Repr

/-- One step of the event-loop system: a user call to `open` or
`close`, or the event loop firing any pending timer (firing in
arbitrary order over-approximates the real time ordering). -/
inductive Step : Sys → Sys → Prop where
  | callOpen (σ : Sys) (id : String) (data : Option Nat) :
      Step σ ⟨(openCall σ.st id data).1, σ.pending ++ (openCall σ.st id data).2.2⟩
  | callClose (σ : Sys) (idArg : Option String) (silent : Bool) :
      Step σ ⟨(close σ.st idArg silent).1, σ.pending ++ (close σ.st idArg silent).2.2⟩
  | fire (σ : Sys) (t : Task) (l1 l2 : List Task) (h : σ.pending = l1 ++ t :: l2) :
      Step σ ⟨(runTask σ.st t).1, (l1 ++ l2) ++ (runTask σ.st t).2.2⟩

/-- Reachability by any finite sequence of steps. -/
def Reach : Sys → Sys → Prop := Relation.ReflTransGen Step

/-- Initial system: modals registered on freshly attached elements
(no presentation class set), nothing active, empty queue, no pending
timer. -/
def InitSys (σ : Sys) : Prop :=
  σ.st.activeModal = none ∧ σ.st.queue = [] ∧ σ.pending = [] ∧
    ∀ p ∈ σ.st.modals, p.2.elem = ⟨false, false, false⟩

/-- All settle delays have resolved: no timer pending. -/
def Quiescent (σ : Sys) : Bool :=
  σ.pending.isEmpty

/-! ### Association-list lemmas -/

/-- A detached element: no presentation class set. -/
def wElem0 : Elem := ⟨false, false, false⟩

/-- An element currently shown. -/
def wElemOpen : Elem := ⟨true, true, true⟩

/-- A record with every callback defined, beforeClose approving. -/
def wRecOpenOk : ModalRec := ⟨wElemOpen, true, true, ⟨true, true, some true, true⟩⟩

/-- A record whose beforeClose vetoes. -/
def wRecVeto : ModalRec := ⟨wElemOpen, true, true, ⟨true, true, some false, true⟩⟩

/-- A closed record with only an onClose callback. -/
def wRecOnClose : ModalRec := ⟨wElem0, false, false, ⟨false, true, none, true⟩⟩

/-- Sequential manager with modal a open and active. -/
def wSeqActive : MState := ⟨[("a", wRecOpenOk)], some "a", [], true, true, true, true⟩

/-- Sequential manager, a open and active, closed b registered. -/
def wSDouble : MState :=
  ⟨[("a", wRecOpenOk), ("b", wRecOnClose)], some "a", [], true, true, false, true⟩

/-- Manager with a single vetoing modal open. -/
def wSVeto : MState := ⟨[("m", wRecVeto)], some "m", [], true, true, false, true⟩

/-! ### The claims -/

/-- Record triple and state for the FIFO witness scenario. -/
def wFifo0 : MState :=
  ⟨[("a", wRecOpenOk), ("b", wRecOpenOk), ("c", wRecOpenOk)],
   some "a", [], true, true, true, true⟩

/-- Non-sequential manager with x and y both carrying the active flag
and the scroll lock engaged. -/
def wXY : MState :=
  ⟨[("x", wRecOpenOk), ("y", wRecOpenOk)], some "y", [], true, true, false, true⟩

/-- Overwrite the stored per-record closeOnOverlay option. -/
def setCOO (b : Bool) (r : ModalRec) : ModalRec :=
  { r with opts := { r.opts with closeOnOverlay := b } }

/-- Overwrite the stored closeOnOverlay option of every record. -/
def mapCOO (b : Bool) (s : MState) : MState :=
  { s with modals := s.modals.map fun p => (p.1, setCOO b p.2) }

/-- The sequential-mode invariant: every registry entry carrying the
active class is the one activeModal points at. -/
def SeqInv (s : MState) : Prop :=
  ∀ p ∈ s.modals, p.2.elem.active = true → s.activeModal = some p.1

/-- System invariant: sequential mode, and the active-class discipline. -/
def SysInv (σ : Sys) : Prop := σ.st.sequential = true ∧ SeqInv σ.st

/-- A freshly registered record with no callbacks. -/
def wRecInit : ModalRec := ⟨⟨false, false, false⟩, false, false, ⟨false, false, none, false⟩⟩

/-- Initial sequential system for the C1 witness. -/
def wSys0 : Sys :=
  ⟨⟨[("a", wRecInit), ("b", wRecInit)], none, [], true, false, true, false⟩, []⟩

/-- After open a: a active, show timer pending. -/
def wSys1 : Sys :=
  ⟨⟨[("a", ⟨⟨true, false, true⟩, false, false, ⟨false, false, none, false⟩⟩),
     ("b", wRecInit)], some "a", [], true, false, true, false⟩, [Task.showT "a"]⟩

/-- After the show timer fired: quiescent, only a active. -/
def wSys2 : Sys :=
  ⟨⟨[("a", ⟨⟨true, true, true⟩, false, false, ⟨false, false, none, false⟩⟩),
     ("b", wRecInit)], some "a", [], true, false, true, false⟩, []⟩

theorem mget_mupd (l : List (String × ModalRec)) (i j : String) (f : ModalRec → ModalRec) :
    mget (mupd l i f) j = if j = i then (mget l i).map f else mget l j := by
  induction l with
  | nil => simp [mget, mupd]
  | cons p rest ih =>
    obtain ⟨k, r⟩ := p
    have hcons : mupd ((k, r) :: rest) i f
        = (if k = i then (k, f r) else (k, r)) :: mupd rest i f := by
      simp [mupd]
    rw [hcons]
    by_cases hk : k = i
    · rw [if_pos hk]
      subst hk
      by_cases hj : j = k
      · subst hj
        simp [mget]
      · have hj2 : ¬k = j := fun h => hj h.symm
        simp [mget, hj, hj2, ih]
    · rw [if_neg hk]
      by_cases hj : k = j
      · subst hj
        simp [mget, hk]
      · simp [mget, hj, hk, ih]

theorem mupd_map {α : Type} (l : List (String × ModalRec)) (i : String)
    (f : ModalRec → ModalRec) (proj : String × ModalRec → α)
    (hf : ∀ p : String × ModalRec, proj (p.1, f p.2) = proj p) :
    (mupd l i f).map proj = l.map proj := by
  induction l with
  | nil => rfl
  | cons p rest ih =>
    have hcons : mupd (p :: rest) i f
        = (if p.1 = i then (p.1, f p.2) else p) :: mupd rest i f := by
      simp [mupd]
    rw [hcons, List.map_cons, List.map_cons, ih]
    by_cases hk : p.1 = i
    · rw [if_pos hk, hf p]
    · rw [if_neg hk]

/-! ### Branch-shape lemmas for the operations -/

/-- Lines 282-285: in sequential mode with an active modal, `open`
only appends to the queue. -/
theorem openCall_queues (s : MState) (id : String) (d : Option Nat)
    (hseq : s.sequential = true) (hact : s.activeModal.isSome = true) :
    openCall s id d = ({ s with queue := s.queue ++ [(id, d)] }, [], []) := by
  simp [openCall, hseq, hact]

/-- Lines 287-288: outside the queueing branch, `open` of an
unregistered id does nothing. -/
theorem openCall_unknown (s : MState) (id : String) (d : Option Nat)
    (hns : (s.sequential && s.activeModal.isSome) = false)
    (hg : mget s.modals id = none) :
    openCall s id d = (s, [], []) := by
  simp [openCall, hns, hg]

/-- Lines 290-311 with nothing active: `open` activates the target,
engages the scroll lock when configured, sets `activeModal`, schedules
the 10ms `show` timer, and fires `onOpen` when present. -/
theorem openCall_fresh (s : MState) (id : String) (d : Option Nat) (m : ModalRec)
    (hact : s.activeModal = none) (hg : mget s.modals id = some m) :
    openCall s id d =
      ({ s with modals := mupd s.modals id addActive,
                activeModal := some id,
                overflowHidden := s.bodyScrollLock || s.overflowHidden },
       if m.opts.hasOnOpen then [Ev.onOpenEv id d] else [],
       [Task.showT id]) := by
  cases hb : s.bodyScrollLock <;> simp [openCall, hact, hg, hb]

/-- Lines 314-319: `close` of an unregistered id does nothing. -/
theorem close_unknown (s : MState) (id : String) (silent : Bool)
    (hg : mget s.modals id = none) :
    close s (some id) silent = (s, [], []) := by
  simp [close, Option.orElse, hg]

/-- Lines 315-316: `close()` with no argument and nothing active does
nothing. -/
theorem close_none_noActive (s : MState) (silent : Bool)
    (h : s.activeModal = none) :
    close s none silent = (s, [], []) := by
  simp [close, Option.orElse, h]

/-- Lines 321-325: a `beforeClose` callback returning false vetoes a
non-silent close before any mutation. -/
theorem close_veto (s : MState) (id : String) (m : ModalRec)
    (hg : mget s.modals id = some m)
    (hv : m.opts.beforeClose = some false) :
    close s (some id) false = (s, [Ev.beforeCloseEv id], []) := by
  simp [close, Option.orElse, hg, hv]

/-- Lines 327-329: a non-vetoed `close` drops the `show` class of the
target and schedules the 300ms settle timer, nothing else. -/
theorem close_proceeds (s : MState) (id : String) (silent : Bool) (m : ModalRec)
    (hg : mget s.modals id = some m)
    (hnv : ¬(m.opts.beforeClose = some false ∧ silent = false)) :
    close s (some id) silent =
      ({ s with modals := mupd s.modals id dropShow },
       if m.opts.beforeClose.isSome && !silent then [Ev.beforeCloseEv id] else [],
       [Task.settleT id silent]) := by
  cases silent <;> simp_all [close, Option.orElse, hg]

/-- Lines 329-350 with the state-level ifs pushed into the fields:
the settle timer drops the `active` class of its target, releases the
scroll lock only if no registry entry is still active, clears
`activeModal` when it still points at the target, fires `onClose`
unless silent, and then drains the front queue entry into `open`. -/
theorem closeSettle_shape (s : MState) (id : String) (silent : Bool) (m : ModalRec)
    (hg : mget s.modals id = some m) :
    closeSettle s id silent =
      (let m1 := mupd s.modals id dropActive
       let s3 : MState := { s with
         modals := m1,
         overflowHidden := if s.bodyScrollLock && !(m1.any fun p => p.2.elem.active)
           then false else s.overflowHidden,
         activeModal := if s.activeModal = some id then none else s.activeModal }
       let evs1 := if !silent && m.opts.hasOnClose then [Ev.onCloseEv id] else []
       match s.queue with
       | [] => (s3, evs1, [])
       | (nid, nd) :: rest =>
         let r := openCall { s3 with queue := rest } nid nd
         (r.1, evs1 ++ r.2.1, r.2.2)) := by
  simp only [closeSettle, hg, hasOtherActiveModals]
  by_cases c1 : (s.bodyScrollLock && !((mupd s.modals id dropActive).any fun p => p.2.elem.active)) = true
  · by_cases c2 : s.activeModal = some id
    · simp [c1, c2]
    · simp [c1, c2]
  · by_cases c2 : s.activeModal = some id
    · simp [c1, c2]
    · simp [c1, c2]

/-! ### Concrete states used by witnesses and counterexamples -/

/-- C3: a non-silent close of a registered modal whose beforeClose
returns false is vetoed atomically: the state, hence activeModal,
registry, queue, presentation flags and scroll lock, is returned
unchanged, only the beforeClose consultation is observable, no settle
timer is scheduled and no onClose fires. -/
theorem veto_close_no_change (s : MState) (id : String) (m : ModalRec)
    (hg : mget s.modals id = some m)
    (hv : m.opts.beforeClose = some false) :
    close s (some id) false = (s, [Ev.beforeCloseEv id], []) :=
  close_veto s id m hg hv

theorem veto_close_no_change_witness :
    close wSVeto (some "m") false = (wSVeto, [Ev.beforeCloseEv "m"], []) :=
  veto_close_no_change wSVeto "m" wRecVeto (by decide) (by decide)

/-- C8: close is two-phase.  The synchronous call only drops the show
flag of the target: activeModal, queue, scroll lock and every active
flag are unchanged, no onClose has fired, and exactly one settle task
is scheduled.  Clearing of activeModal, removal of the active flag and
the onClose invocation happen in that settle task. -/
theorem close_two_phase (s : MState) (id j : String) (silent : Bool) (m : ModalRec)
    (hg : mget s.modals id = some m)
    (hnv : ¬(m.opts.beforeClose = some false ∧ silent = false)) :
    (close s (some id) silent).1.activeModal = s.activeModal ∧
    (close s (some id) silent).1.queue = s.queue ∧
    (close s (some id) silent).1.overflowHidden = s.overflowHidden ∧
    ((close s (some id) silent).1.modals.map fun p => (p.1, p.2.elem.active))
      = (s.modals.map fun p => (p.1, p.2.elem.active)) ∧
    mget (close s (some id) silent).1.modals id = some (dropShow m) ∧
    (j ≠ id → mget (close s (some id) silent).1.modals j = mget s.modals j) ∧
    Ev.onCloseEv j ∉ (close s (some id) silent).2.1 ∧
    (close s (some id) silent).2.2 = [Task.settleT id silent] ∧
    (s.queue = [] →
      (mget (closeSettle (close s (some id) silent).1 id silent).1.modals id).map
          (fun r => r.elem.active) = some false ∧
      (s.activeModal = some id →
        (closeSettle (close s (some id) silent).1 id silent).1.activeModal = none) ∧
      (silent = false → m.opts.hasOnClose = true →
        (closeSettle (close s (some id) silent).1 id silent).2.1 = [Ev.onCloseEv id])) := by
  have hcp := close_proceeds s id silent m hg hnv
  rw [hcp]
  have hg1 : mget (mupd s.modals id dropShow) id = some (dropShow m) := by
    rw [mget_mupd, if_pos rfl, hg]; rfl
  refine ⟨rfl, rfl, rfl, ?_, ?_, ?_, ?_, rfl, ?_⟩
  · exact mupd_map s.modals id dropShow _ fun p => rfl
  · exact hg1
  · intro hj
    rw [mget_mupd, if_neg hj]
  · split <;> simp
  · intro hq
    have hsh := closeSettle_shape { s with modals := mupd s.modals id dropShow }
      id silent (dropShow m) hg1
    rw [hsh]
    simp only [hq]
    refine ⟨?_, ?_, ?_⟩
    · rw [mget_mupd, if_pos rfl, hg1]
      rfl
    · intro ha
      simp [ha]
    · intro hs ho
      simp [hs, ho, dropShow]

theorem close_two_phase_witness :
    (close wSeqActive (some "a") false).1.activeModal = some "a" ∧
    mget (close wSeqActive (some "a") false).1.modals "a" = some (dropShow wRecOpenOk) ∧
    (close wSeqActive (some "a") false).2.2 = [Task.settleT "a" false] ∧
    Ev.onCloseEv "a" ∉ (close wSeqActive (some "a") false).2.1 := by
  have h := close_two_phase wSeqActive "a" "a" false wRecOpenOk (by decide) (by decide)
  exact ⟨h.1, h.2.2.2.2.1, h.2.2.2.2.2.2.2.1, h.2.2.2.2.2.2.1⟩

/-- C4 counterexample: sequential mode, modal a itself is the active
modal, yet open of a is queued (line 282 tests only that some modal is
active, not that it differs from the request) and the open path is not
taken: no onOpen fires and the queue gains the entry. -/
theorem open_same_id_queues_cex :
    (openCall wSeqActive "a" (some 5)).1.queue = [("a", some 5)] ∧
    (openCall wSeqActive "a" (some 5)).2.1 = [] ∧
    (openCall wSeqActive "a" (some 5)).2.2 = [] := by decide

/-- C4 amended: under sequential mode an open request is appended to
the queue exactly when some modal is active, regardless of whether it
is the requested id itself; when none is active the queue is untouched
and a registered target proceeds to the open path with onOpen
invoked. -/
theorem open_queue_iff_active (s : MState) (id : String) (d : Option Nat) (m : ModalRec)
    (hseq : s.sequential = true) :
    ((openCall s id d).1.queue = s.queue ++ [(id, d)] ↔ s.activeModal.isSome = true) ∧
    (s.activeModal = none → mget s.modals id = some m →
      (openCall s id d).1.queue = s.queue ∧
      mget (openCall s id d).1.modals id = some (addActive m) ∧
      (openCall s id d).1.activeModal = some id ∧
      (m.opts.hasOnOpen = true → (openCall s id d).2.1 = [Ev.onOpenEv id d])) := by
  constructor
  · constructor
    · intro hq
      by_contra hns
      have hnone : s.activeModal = none := by
        cases h : s.activeModal
        · rfl
        · rw [h] at hns; simp at hns
      have hqu : (openCall s id d).1.queue = s.queue := by
        cases hg : mget s.modals id with
        | none =>
          rw [openCall_unknown s id d (by simp [hseq, hnone]) hg]
        | some m2 =>
          rw [openCall_fresh s id d m2 hnone hg]
      rw [hqu] at hq
      have := congrArg List.length hq
      simp at this
    · intro hs
      rw [openCall_queues s id d hseq hs]
  · intro hnone hg
    rw [openCall_fresh s id d m hnone hg]
    refine ⟨rfl, ?_, rfl, ?_⟩
    · rw [mget_mupd, if_pos rfl, hg]; rfl
    · intro ho
      simp [ho]

theorem open_queue_iff_active_witness :
    ((openCall wSeqActive "a" (some 5)).1.queue = wSeqActive.queue ++ [("a", some 5)] ↔
      wSeqActive.activeModal.isSome = true) := by
  have h := open_queue_iff_active wSeqActive "a" (some 5) wRecOpenOk (by decide)
  exact h.1

/-- C5 counterexample: in sequential mode with a modal active, open
of an unregistered id changes the queue (the queueing branch at
line 282 runs before the registry lookup at line 287). -/
theorem open_unknown_queued_cex :
    (openCall wSeqActive "nonexistent" none).1.queue = [("nonexistent", none)] := by decide

/-- C5 amended: for an unregistered id, close(id) is a complete no-op
in every state; open(id) is a complete no-op except in sequential mode
with some modal active, where the request is appended to the queue
(and nothing else changes, no callback fires, no timer is
scheduled). -/
theorem unknown_id_noop (s : MState) (id : String) (d : Option Nat) (silent : Bool)
    (hg : mget s.modals id = none) :
    close s (some id) silent = (s, [], []) ∧
    (¬(s.sequential = true ∧ s.activeModal.isSome = true) → openCall s id d = (s, [], [])) ∧
    (s.sequential = true → s.activeModal.isSome = true →
      openCall s id d = ({ s with queue := s.queue ++ [(id, d)] }, [], [])) := by
  refine ⟨close_unknown s id silent hg, ?_, ?_⟩
  · intro hns
    refine openCall_unknown s id d ?_ hg
    cases hsq : s.sequential
    · simp
    · cases hac : s.activeModal.isSome
      · simp
      · exact absurd ⟨hsq, hac⟩ hns
  · intro hsq hac
    exact openCall_queues s id d hsq hac

theorem unknown_id_noop_witness :
    close wSeqActive (some "nonexistent") false = (wSeqActive, [], []) ∧
    openCall wSeqActive "nonexistent" none
      = ({ wSeqActive with queue := [("nonexistent", none)] }, [], []) := by
  have h := unknown_id_noop wSeqActive "nonexistent" none false (by decide)
  refine ⟨h.1, ?_⟩
  have h2 := h.2.2 (by decide) (by decide)
  rw [h2]
  decide

/-- C6 counterexample: close of the registered but already Closed
modal b is not a no-op: the synchronous call schedules a settle timer
and the settle invokes the onClose callback of b. -/
theorem double_close_fires_onClose_cex :
    (close wSDouble (some "b") false).2.2 = [Task.settleT "b" false] ∧
    (closeSettle (close wSDouble (some "b") false).1 "b" false).2.1
      = [Ev.onCloseEv "b"] := by decide

/-- C6 amended: no misuse throws; close() with no argument and no
active modal is a complete no-op invoking no callbacks; close(id) on a
registered already-Closed modal leaves activeModal and every active
flag unchanged in the synchronous phase, but schedules a settle timer
whose callback invokes onClose when defined (and silent not set). -/
theorem misuse_defined_noop (s : MState) (id : String) (m : ModalRec)
    (hg : mget s.modals id = some m) ( _hclosed : m.elem.active = false)
    (hnv : m.opts.beforeClose ≠ some false) :
    (∀ silent, s.activeModal = none → close s none silent = (s, [], [])) ∧
    (close s (some id) false).1.activeModal = s.activeModal ∧
    ((close s (some id) false).1.modals.map fun p => (p.1, p.2.elem.active))
      = (s.modals.map fun p => (p.1, p.2.elem.active)) ∧
    (close s (some id) false).2.2 = [Task.settleT id false] ∧
    (m.opts.hasOnClose = true →
      Ev.onCloseEv id ∈ (closeSettle (close s (some id) false).1 id false).2.1) := by
  have hnv2 : ¬(m.opts.beforeClose = some false ∧ false = false) := fun h => hnv h.1
  have hcp := close_proceeds s id false m hg hnv2
  have hg1 : mget (mupd s.modals id dropShow) id = some (dropShow m) := by
    rw [mget_mupd, if_pos rfl, hg]; rfl
  rw [hcp]
  refine ⟨fun silent h => close_none_noActive s silent h, rfl, ?_, rfl, ?_⟩
  · exact mupd_map s.modals id dropShow _ fun p => rfl
  · intro ho
    have hsh := closeSettle_shape { s with modals := mupd s.modals id dropShow }
      id false (dropShow m) hg1
    rw [hsh]
    simp only []
    cases hq : s.queue with
    | nil => simp [hq, ho, dropShow]
    | cons x rest =>
      obtain ⟨nid, nd⟩ := x
      simp [hq, ho, dropShow]

theorem misuse_defined_noop_witness :
    (close wSDouble (some "b") false).1.activeModal = some "a" ∧
    (close wSDouble (some "b") false).2.2 = [Task.settleT "b" false] ∧
    Ev.onCloseEv "b" ∈ (closeSettle (close wSDouble (some "b") false).1 "b" false).2.1 := by
  have h := misuse_defined_noop wSDouble "b" wRecOnClose (by decide) (by decide) (by decide)
  refine ⟨?_, h.2.2.2.1, h.2.2.2.2 (by decide)⟩
  rw [h.2.1]
  decide

/-- The settle timer of a close of the active modal pops exactly the
front queue entry and feeds it to open: the popped id becomes active
with its stored payload delivered to onOpen, the rest of the queue is
untouched, and other registry entries are unchanged. -/
theorem closeSettle_drains (s : MState) (id nid : String) (silent : Bool)
    (nd : Option Nat) (rest : List (String × Option Nat)) (m mn : ModalRec) (j : String)
    (hg : mget s.modals id = some m)
    (hact : s.activeModal = some id)
    (hq : s.queue = (nid, nd) :: rest)
    (hgn : mget s.modals nid = some mn)
    (hne : nid ≠ id) :
    (closeSettle s id silent).1.activeModal = some nid ∧
    (closeSettle s id silent).1.queue = rest ∧
    mget (closeSettle s id silent).1.modals nid = some (addActive mn) ∧
    (j ≠ id → j ≠ nid → mget (closeSettle s id silent).1.modals j = mget s.modals j) ∧
    (mn.opts.hasOnOpen = true → Ev.onOpenEv nid nd ∈ (closeSettle s id silent).2.1) ∧
    (silent = false → m.opts.hasOnClose = true →
      Ev.onCloseEv id ∈ (closeSettle s id silent).2.1) := by
  rw [closeSettle_shape s id silent m hg]
  have hXg : mget (mupd s.modals id dropActive) nid = some mn := by
    rw [mget_mupd, if_neg hne, hgn]
  simp only [hq, hact]
  rw [openCall_fresh _ nid nd mn rfl hXg]
  refine ⟨rfl, rfl, ?_, ?_, ?_, ?_⟩
  · rw [mget_mupd, if_pos rfl, hXg]
    rfl
  · intro hj1 hj2
    rw [mget_mupd, if_neg hj2, mget_mupd, if_neg hj1]
  · intro ho
    simp [ho]
  · intro hs hc
    simp [hs, hc]

/-- C2: sequential FIFO service.  With A active and queue empty, the
opens for B and C queue in arrival order; the non-vetoed close of A
schedules one settle timer whose callback pops exactly the front entry
(B, dB) and opens it with its stored payload, leaving activeModal = B
and queue = [(C, dC)]; the close of B likewise settles into C opening
and the queue emptying - strict FIFO order. -/
theorem seq_fifo_order (s s1 s2 s3 s4 s5 s6 : MState)
    (ev3 ev4 ev5 ev6 : List Ev) (tk3 tk4 tk5 tk6 : List Task)
    (A B C : String) (dB dC : Option Nat) (ra rb rc : ModalRec)
    (dAB : A ≠ B) (dAC : A ≠ C) (dBC : B ≠ C)
    (hseq : s.sequential = true) (hact : s.activeModal = some A) (hq0 : s.queue = [])
    (hA : mget s.modals A = some ra) (hB : mget s.modals B = some rb)
    (hC : mget s.modals C = some rc)
    (hvA : ra.opts.beforeClose ≠ some false) (hvB : rb.opts.beforeClose ≠ some false)
    (e1 : openCall s B dB = (s1, [], []))
    (e2 : openCall s1 C dC = (s2, [], []))
    (e3 : close s2 (some A) false = (s3, ev3, tk3))
    (e4 : closeSettle s3 A false = (s4, ev4, tk4))
    (e5 : close s4 (some B) false = (s5, ev5, tk5))
    (e6 : closeSettle s5 B false = (s6, ev6, tk6)) :
    s1.queue = [(B, dB)] ∧
    s2.queue = [(B, dB), (C, dC)] ∧
    tk3 = [Task.settleT A false] ∧
    s4.activeModal = some B ∧
    s4.queue = [(C, dC)] ∧
    (mget s4.modals B).map (fun r => r.elem.active) = some true ∧
    (rb.opts.hasOnOpen = true → Ev.onOpenEv B dB ∈ ev4) ∧
    tk5 = [Task.settleT B false] ∧
    s6.activeModal = some C ∧
    s6.queue = [] ∧
    (mget s6.modals C).map (fun r => r.elem.active) = some true ∧
    (rc.opts.hasOnOpen = true → Ev.onOpenEv C dC ∈ ev6) := by
  have hBA : B ≠ A := Ne.symm dAB
  have hCA : C ≠ A := Ne.symm dAC
  have hCB : C ≠ B := Ne.symm dBC
  -- stage 1: both opens only queue
  have q1 : s1 = { s with queue := [(B, dB)] } := by
    have h := (openCall_queues s B dB hseq (by rw [hact]; rfl)).symm.trans e1
    rw [hq0] at h
    exact (congrArg Prod.fst h).symm
  subst q1
  have q2 : s2 = { s with queue := [(B, dB), (C, dC)] } := by
    have h := (openCall_queues { s with queue := [(B, dB)] } C dC hseq
        (by rw [show ({ s with queue := [(B, dB)] } : MState).activeModal
              = s.activeModal from rfl, hact]; rfl)).symm.trans e2
    exact (congrArg Prod.fst h).symm
  subst q2
  -- stage 2: close A proceeds
  have hnvA : ¬(ra.opts.beforeClose = some false ∧ false = false) := fun h => hvA h.1
  have h3 := (close_proceeds { s with queue := [(B, dB), (C, dC)] } A false ra hA hnvA).symm.trans e3
  have q3 : s3 = { s with queue := [(B, dB), (C, dC)], modals := mupd s.modals A dropShow } := (congrArg Prod.fst h3).symm
  have qtk3 : tk3 = [Task.settleT A false] := (congrArg (fun p => p.2.2) h3).symm
  subst q3
  -- stage 3: settle of A drains B
  have hg3A : mget (mupd s.modals A dropShow) A = some (dropShow ra) := by
    rw [mget_mupd, if_pos rfl, hA]; rfl
  have hg3B : mget (mupd s.modals A dropShow) B = some rb := by
    rw [mget_mupd, if_neg hBA, hB]
  have hg3C : mget (mupd s.modals A dropShow) C = some rc := by
    rw [mget_mupd, if_neg hCA, hC]
  have hd1 := closeSettle_drains { s with queue := [(B, dB), (C, dC)], modals := mupd s.modals A dropShow } A B false dB [(C, dC)] (dropShow ra) rb C hg3A hact rfl hg3B hBA
  rw [e4] at hd1
  obtain ⟨ham4, hq4, hgB4, hoth4, hopen4, -⟩ := hd1
  have hgC4 : mget s4.modals C = mget (mupd s.modals A dropShow) C := hoth4 hCA hCB
  -- stage 4: close B proceeds
  have hnvB : ¬((addActive rb).opts.beforeClose = some false ∧ false = false) :=
    fun h => hvB h.1
  have h5 := (close_proceeds s4 B false (addActive rb) hgB4 hnvB).symm.trans e5
  have q5 : s5 = { s4 with modals := mupd s4.modals B dropShow } :=
    (congrArg Prod.fst h5).symm
  have qtk5 : tk5 = [Task.settleT B false] := (congrArg (fun p => p.2.2) h5).symm
  -- stage 5: settle of B drains C
  have hg5B : mget s5.modals B = some (dropShow (addActive rb)) := by
    rw [q5]
    show mget (mupd s4.modals B dropShow) B = _
    rw [mget_mupd, if_pos rfl, hgB4]
    rfl
  have hg5C : mget s5.modals C = some rc := by
    rw [q5]
    show mget (mupd s4.modals B dropShow) C = _
    rw [mget_mupd, if_neg hCB, hgC4, hg3C]
  have ham5 : s5.activeModal = some B := by rw [q5]; exact ham4
  have hq5 : s5.queue = [(C, dC)] := by rw [q5]; exact hq4
  have hd2 := closeSettle_drains s5 B C false dC [] (dropShow (addActive rb)) rc A
    hg5B ham5 hq5 hg5C hCB
  rw [e6] at hd2
  obtain ⟨ham6, hq6, hgC6, -, hopen6, -⟩ := hd2
  refine ⟨rfl, rfl, qtk3, ham4, hq4, ?_, hopen4, qtk5, ham6, hq6, ?_, hopen6⟩
  · rw [hgB4]; rfl
  · rw [hgC6]; rfl

theorem seq_fifo_order_witness :
    (closeSettle (close (openCall (openCall wFifo0 "b" (some 1)).1 "c" (some 2)).1
        (some "a") false).1 "a" false).1.activeModal = some "b" ∧
    (closeSettle (close (closeSettle (close (openCall (openCall wFifo0 "b" (some 1)).1
        "c" (some 2)).1 (some "a") false).1 "a" false).1 (some "b") false).1
        "b" false).1.activeModal = some "c" ∧
    (closeSettle (close (closeSettle (close (openCall (openCall wFifo0 "b" (some 1)).1
        "c" (some 2)).1 (some "a") false).1 "a" false).1 (some "b") false).1
        "b" false).1.queue = [] := by
  have h := seq_fifo_order wFifo0
    (openCall wFifo0 "b" (some 1)).1
    (openCall (openCall wFifo0 "b" (some 1)).1 "c" (some 2)).1
    (close (openCall (openCall wFifo0 "b" (some 1)).1 "c" (some 2)).1 (some "a") false).1
    (closeSettle (close (openCall (openCall wFifo0 "b" (some 1)).1 "c" (some 2)).1
      (some "a") false).1 "a" false).1
    (close (closeSettle (close (openCall (openCall wFifo0 "b" (some 1)).1 "c" (some 2)).1
      (some "a") false).1 "a" false).1 (some "b") false).1
    (closeSettle (close (closeSettle (close (openCall (openCall wFifo0 "b" (some 1)).1
      "c" (some 2)).1 (some "a") false).1 "a" false).1 (some "b") false).1 "b" false).1
    (close (openCall (openCall wFifo0 "b" (some 1)).1 "c" (some 2)).1 (some "a") false).2.1
    (closeSettle (close (openCall (openCall wFifo0 "b" (some 1)).1 "c" (some 2)).1
      (some "a") false).1 "a" false).2.1
    (close (closeSettle (close (openCall (openCall wFifo0 "b" (some 1)).1 "c" (some 2)).1
      (some "a") false).1 "a" false).1 (some "b") false).2.1
    (closeSettle (close (closeSettle (close (openCall (openCall wFifo0 "b" (some 1)).1
      "c" (some 2)).1 (some "a") false).1 "a" false).1 (some "b") false).1 "b" false).2.1
    (close (openCall (openCall wFifo0 "b" (some 1)).1 "c" (some 2)).1 (some "a") false).2.2
    (closeSettle (close (openCall (openCall wFifo0 "b" (some 1)).1 "c" (some 2)).1
      (some "a") false).1 "a" false).2.2
    (close (closeSettle (close (openCall (openCall wFifo0 "b" (some 1)).1 "c" (some 2)).1
      (some "a") false).1 "a" false).1 (some "b") false).2.2
    (closeSettle (close (closeSettle (close (openCall (openCall wFifo0 "b" (some 1)).1
      "c" (some 2)).1 (some "a") false).1 "a" false).1 (some "b") false).1 "b" false).2.2
    "a" "b" "c" (some 1) (some 2) wRecOpenOk wRecOpenOk wRecOpenOk
    (by decide) (by decide) (by decide) (by decide) (by decide) (by decide)
    (by decide) (by decide) (by decide) (by decide) (by decide)
    rfl rfl rfl rfl rfl rfl
  exact ⟨h.2.2.2.1, h.2.2.2.2.2.2.2.2.1, h.2.2.2.2.2.2.2.2.2.1⟩

/-- A silent close (lines 292, 322, 341, 355) emits no callback event
and schedules only silent settle tasks. -/
theorem close_silent (s : MState) (idArg : Option String) :
    (close s idArg true).2.1 = [] ∧
    ∀ t ∈ (close s idArg true).2.2, ∃ i, t = Task.settleT i true := by
  unfold close
  cases idArg.orElse fun _ => s.activeModal with
  | none => simp
  | some modalId =>
    cases hg : mget s.modals modalId with
    | none => simp [hg]
    | some m => simp [hg]

/-- Every event emitted synchronously by open is an onOpen of the
requested id: the forced hand-off close inside open is silent, so it
contributes nothing. -/
theorem openCall_events (s : MState) (id : String) (d : Option Nat) :
    ∀ e ∈ (openCall s id d).2.1, ∃ dd, e = Ev.onOpenEv id dd := by
  unfold openCall
  by_cases hb : (s.sequential && s.activeModal.isSome) = true
  · simp [hb]
  · simp only [hb]
    cases hg : mget s.modals id with
    | none => simp
    | some m =>
      cases ha : s.activeModal with
      | none =>
        intro e he
        simp only [Bool.false_eq_true, if_false] at he
        split at he <;> simp_all
      | some aid =>
        by_cases haid : aid = id
        · intro e he
          simp only [Bool.false_eq_true, if_false, haid] at he
          simp at he
          exact ⟨d, he.2⟩
        · intro e he
          simp only [Bool.false_eq_true, if_false] at he
          have hne : ¬aid = id := haid
          simp [hne, (close_silent s (some aid)).1] at he
          exact ⟨d, he.2⟩

/-- The fold inside closeAll accumulates no events and only silent
settle tasks. -/
theorem closeAll_fold (ids : List String) (acc : MState × List Ev × List Task)
    (hev : acc.2.1 = []) (htk : ∀ t ∈ acc.2.2, ∃ i, t = Task.settleT i true) :
    (ids.foldl (fun acc id =>
        let r := close acc.1 (some id) true
        (r.1, acc.2.1 ++ r.2.1, acc.2.2 ++ r.2.2)) acc).2.1 = [] ∧
    ∀ t ∈ (ids.foldl (fun acc id =>
        let r := close acc.1 (some id) true
        (r.1, acc.2.1 ++ r.2.1, acc.2.2 ++ r.2.2)) acc).2.2, ∃ i, t = Task.settleT i true := by
  induction ids generalizing acc with
  | nil => exact ⟨hev, htk⟩
  | cons id rest ih =>
    simp only [List.foldl_cons]
    apply ih
    · simp [hev, (close_silent acc.1 (some id)).1]
    · intro t ht
      simp only [List.mem_append] at ht
      cases ht with
      | inl h => exact htk t h
      | inr h => exact (close_silent acc.1 (some id)).2 t h

/-- open never emits an onClose event, in particular for counting. -/
theorem count_onClose_openCall (s : MState) (nid : String) (nd : Option Nat)
    (id : String) :
    List.count (Ev.onCloseEv id) (openCall s nid nd).2.1 = 0 := by
  rw [List.count_eq_zero]
  intro hmem
  obtain ⟨dd, he⟩ := openCall_events s nid nd _ hmem
  simp at he

/-- C9: silent closes suppress callbacks.  closeAll emits no event at
all (beforeClose never consulted, onClose never invoked), clears the
queue outright and schedules only silent settle tasks; the events of
open are onOpen only (its forced hand-off close is silent); an
ordinary non-vetoed close(id) emits no onClose synchronously and its
settle phase emits the onClose of id exactly once. -/
theorem silent_close_suppression (s : MState) (id nid : String) (d : Option Nat)
    (m : ModalRec) :
    (closeAll s).2.1 = [] ∧
    (closeAll s).1.queue = [] ∧
    (∀ t ∈ (closeAll s).2.2, ∃ i, t = Task.settleT i true) ∧
    (∀ e ∈ (openCall s nid d).2.1, ∃ dd, e = Ev.onOpenEv nid dd) ∧
    (mget s.modals id = some m → m.opts.beforeClose ≠ some false →
      List.count (Ev.onCloseEv id) (close s (some id) false).2.1 = 0) ∧
    (mget s.modals id = some m → m.opts.beforeClose ≠ some false →
      m.opts.hasOnClose = true →
      List.count (Ev.onCloseEv id)
        ((closeSettle (close s (some id) false).1 id false).2.1) = 1) := by
  have hfold := closeAll_fold (s.modals.map Prod.fst) (s, ([] : List Ev), ([] : List Task))
    rfl (by intro t ht; cases ht)
  refine ⟨?_, rfl, ?_, openCall_events s nid d, ?_, ?_⟩
  · exact hfold.1
  · exact hfold.2
  · intro hg hnb
    have hcp := close_proceeds s id false m hg (fun h => hnb h.1)
    rw [hcp]
    split <;> simp
  · intro hg hnb ho
    have hcp := close_proceeds s id false m hg (fun h => hnb h.1)
    have hg1 : mget (mupd s.modals id dropShow) id = some (dropShow m) := by
      rw [mget_mupd, if_pos rfl, hg]; rfl
    rw [hcp]
    have hsh := closeSettle_shape { s with modals := mupd s.modals id dropShow }
      id false (dropShow m) hg1
    rw [hsh]
    simp only [ho]
    cases hq : s.queue with
    | nil => simp [dropShow, ho]
    | cons x rest =>
      obtain ⟨qid, qd⟩ := x
      simp only [dropShow, ho]
      rw [List.count_append, count_onClose_openCall]
      simp [dropShow, ho]

theorem silent_close_suppression_witness :
    (closeAll wFifo0).2.1 = [] ∧
    (closeAll wFifo0).1.queue = [] ∧
    List.count (Ev.onCloseEv "a")
      ((closeSettle (close wFifo0 (some "a") false).1 "a" false).2.1) = 1 := by
  have h := silent_close_suppression wFifo0 "a" "b" none wRecOpenOk
  exact ⟨h.1, h.2.1, h.2.2.2.2.2 (by decide) (by decide) (by decide)⟩

/-- A lookup hit is a member of the association list. -/
theorem mget_mem (l : List (String × ModalRec)) (j : String) (r : ModalRec)
    (h : mget l j = some r) : (j, r) ∈ l := by
  induction l with
  | nil => simp [mget] at h
  | cons p rest ih =>
    obtain ⟨k, r0⟩ := p
    by_cases hk : k = j
    · subst hk
      simp [mget] at h
      simp [h]
    · simp [mget, hk] at h
      simp [ih h]

/-- mupd with an element-flag-preserving function keeps the active
scan unchanged. -/
theorem any_mupd (l : List (String × ModalRec)) (i : String) (f : ModalRec → ModalRec)
    (hf : ∀ r, (f r).elem.active = r.elem.active) :
    ((mupd l i f).any fun p => p.2.elem.active) = (l.any fun p => p.2.elem.active) := by
  induction l with
  | nil => rfl
  | cons p rest ih =>
    have hcons : mupd (p :: rest) i f
        = (if p.1 = i then (p.1, f p.2) else p) :: mupd rest i f := by
      simp [mupd]
    rw [hcons, List.any_cons, List.any_cons, ih]
    by_cases hk : p.1 = i
    · rw [if_pos hk]
      simp [hf p.2]
    · rw [if_neg hk]

/-- Activating a registered entry makes the active scan true. -/
theorem any_mupd_addActive (l : List (String × ModalRec)) (nid : String) (mn : ModalRec)
    (hg : mget l nid = some mn) :
    ((mupd l nid addActive).any fun p => p.2.elem.active) = true := by
  have hm : mget (mupd l nid addActive) nid = some (addActive mn) := by
    rw [mget_mupd, if_pos rfl, hg]; rfl
  have hmem := mget_mem _ _ _ hm
  rw [List.any_eq_true]
  exact ⟨(nid, addActive mn), hmem, rfl⟩

/-- When open proceeds to the open path of a registered target with
the scroll lock option on, the lock is engaged and the target is
active in the result. -/
theorem openCall_proceed_lock (s : MState) (nid : String) (nd : Option Nat) (mn : ModalRec)
    (hb : (s.sequential && s.activeModal.isSome) = false)
    (hg : mget s.modals nid = some mn)
    (hlock : s.bodyScrollLock = true) :
    (openCall s nid nd).1.overflowHidden = true ∧
    ((openCall s nid nd).1.modals.any fun p => p.2.elem.active) = true := by
  unfold openCall
  simp only [hb, Bool.false_eq_true, if_false, hg]
  cases ha : s.activeModal with
  | none =>
    simp only [hlock]
    exact ⟨by trivial, any_mupd_addActive s.modals nid mn hg⟩
  | some aid =>
    by_cases haid : aid = nid
    · simp only [haid, ne_eq, not_true_eq_false, if_false, hlock]
      exact ⟨by trivial, any_mupd_addActive s.modals nid mn hg⟩
    · have hne : (aid ≠ nid) = True := by simp [haid]
      simp only [ne_eq, haid, not_false_eq_true, if_true, hlock]
      cases hga : mget s.modals aid with
      | none =>
        rw [close_unknown s aid true hga]
        simp only [hlock]
        exact ⟨by trivial, any_mupd_addActive s.modals nid mn hg⟩
      | some ma =>
        rw [close_proceeds s aid true ma hga (fun h => by simpa using h.2)]
        simp only [hlock]
        refine ⟨by trivial, ?_⟩
        have hg2 : mget (mupd s.modals aid dropShow) nid = some mn := by
          rw [mget_mupd, if_neg (fun h => haid h.symm), hg]
        exact any_mupd_addActive (mupd s.modals aid dropShow) nid mn hg2

/-- open preserves the discipline: the scroll lock is released exactly
when no registry entry is active (given bodyScrollLock on). -/
theorem openCall_lock_iff (s : MState) (nid : String) (nd : Option Nat)
    (hlock : s.bodyScrollLock = true)
    (hiff : s.overflowHidden = false ↔ (s.modals.any fun p => p.2.elem.active) = false) :
    ((openCall s nid nd).1.overflowHidden = false ↔
      ((openCall s nid nd).1.modals.any fun p => p.2.elem.active) = false) := by
  by_cases hb : (s.sequential && s.activeModal.isSome) = true
  · rw [openCall_queues s nid nd ((Bool.and_eq_true _ _).mp hb).1
      ((Bool.and_eq_true _ _).mp hb).2]
    exact hiff
  · have hb2 : (s.sequential && s.activeModal.isSome) = false := by simpa using hb
    cases hg : mget s.modals nid with
    | none =>
      rw [openCall_unknown s nid nd hb2 hg]
      exact hiff
    | some mn =>
      obtain ⟨h1, h2⟩ := openCall_proceed_lock s nid nd mn hb2 hg hlock
      rw [h1, h2]

/-- C7: the settle phase of every close decides the shared scroll lock
by scanning the whole registry: with bodyScrollLock enabled and the
lock engaged, after the settle the lock is released exactly when no
registered modal still carries the active flag (including through any
queue drain the settle performs). -/
theorem scroll_lock_iff_active (s : MState) (id : String) (silent : Bool) (m : ModalRec)
    (hg : mget s.modals id = some m)
    (hlock : s.bodyScrollLock = true) (hovf : s.overflowHidden = true) :
    ((closeSettle s id silent).1.overflowHidden = false ↔
      ((closeSettle s id silent).1.modals.any fun p => p.2.elem.active) = false) := by
  rw [closeSettle_shape s id silent m hg]
  simp only [hlock]
  cases hany : ((mupd s.modals id dropActive).any fun p => p.2.elem.active) with
  | false =>
    cases hq : s.queue with
    | nil =>
      dsimp only
      simp [hany, hlock]
    | cons x rest =>
      obtain ⟨nid, nd⟩ := x
      dsimp only
      apply openCall_lock_iff
      · rfl
      · simp [hany, hlock]
  | true =>
    cases hq : s.queue with
    | nil =>
      dsimp only
      simp [hany, hlock, hovf]
    | cons x rest =>
      obtain ⟨nid, nd⟩ := x
      dsimp only
      apply openCall_lock_iff
      · rfl
      · simp [hany, hlock, hovf]

theorem scroll_lock_iff_active_witness :
    ((closeSettle (close wXY (some "x") false).1 "x" false).1.overflowHidden = false ↔
      (((closeSettle (close wXY (some "x") false).1 "x" false).1.modals.any
        fun p => p.2.elem.active) = false)) ∧
    (closeSettle (close wXY (some "x") false).1 "x" false).1.overflowHidden = true ∧
    (closeSettle (close (closeSettle (close wXY (some "x") false).1 "x" false).1
      (some "y") false).1 "y" false).1.overflowHidden = false := by
  refine ⟨?_, by decide, by decide⟩
  exact scroll_lock_iff_active (close wXY (some "x") false).1 "x" false
    (dropShow wRecOpenOk) (by decide) (by decide) (by decide)

theorem setCOO_elem (b : Bool) (r : ModalRec) : (setCOO b r).elem = r.elem := rfl

theorem setCOO_beforeClose (b : Bool) (r : ModalRec) :
    (setCOO b r).opts.beforeClose = r.opts.beforeClose := rfl

theorem setCOO_hasOnOpen (b : Bool) (r : ModalRec) :
    (setCOO b r).opts.hasOnOpen = r.opts.hasOnOpen := rfl

theorem setCOO_hasOnClose (b : Bool) (r : ModalRec) :
    (setCOO b r).opts.hasOnClose = r.opts.hasOnClose := rfl

theorem mget_mapCOO (b : Bool) (l : List (String × ModalRec)) (j : String) :
    mget (l.map fun p => (p.1, setCOO b p.2)) j = (mget l j).map (setCOO b) := by
  induction l with
  | nil => rfl
  | cons p rest ih =>
    obtain ⟨k, r⟩ := p
    by_cases hk : k = j
    · subst hk
      simp [mget, ih]
    · simp [mget, hk, ih]

theorem mupd_mapCOO (b : Bool) (l : List (String × ModalRec)) (i : String)
    (f : ModalRec → ModalRec) (hf : ∀ r, f (setCOO b r) = setCOO b (f r)) :
    mupd (l.map fun p => (p.1, setCOO b p.2)) i f
      = (mupd l i f).map fun p => (p.1, setCOO b p.2) := by
  induction l with
  | nil => rfl
  | cons p rest ih =>
    obtain ⟨k, r⟩ := p
    simp only [mupd, List.map_cons] at ih ⊢
    rw [ih]
    by_cases hk : k = i
    · simp [hk, hf r]
    · simp [hk]

theorem any_mapCOO (b : Bool) (l : List (String × ModalRec)) :
    ((l.map fun p => (p.1, setCOO b p.2)).any fun p => p.2.elem.active)
      = (l.any fun p => p.2.elem.active) := by
  induction l with
  | nil => rfl
  | cons p rest ih =>
    simp only [List.map_cons, List.any_cons]
    rw [ih]
    rfl

theorem mget_mset (l : List (String × ModalRec)) (id : String) (r : ModalRec) :
    mget (mset l id r) id = some r := by
  induction l with
  | nil => simp [mget, mset]
  | cons p rest ih =>
    obtain ⟨k, r0⟩ := p
    by_cases hk : k = id
    · simp [mset, hk, mget]
    · simp [mset, hk, mget, ih]

theorem mapCOO_modals (b : Bool) (s : MState) :
    (mapCOO b s).modals = s.modals.map fun p => (p.1, setCOO b p.2) := rfl

theorem mapCOO_activeModal (b : Bool) (s : MState) :
    (mapCOO b s).activeModal = s.activeModal := rfl

theorem mapCOO_queue (b : Bool) (s : MState) : (mapCOO b s).queue = s.queue := rfl

theorem mapCOO_sequential (b : Bool) (s : MState) :
    (mapCOO b s).sequential = s.sequential := rfl

theorem mapCOO_bodyScrollLock (b : Bool) (s : MState) :
    (mapCOO b s).bodyScrollLock = s.bodyScrollLock := rfl

theorem mapCOO_overflowHidden (b : Bool) (s : MState) :
    (mapCOO b s).overflowHidden = s.overflowHidden := rfl

/-- close never consults the stored closeOnOverlay: overwriting it in
every record commutes with close. -/
theorem close_mapCOO (b : Bool) (s : MState) (idArg : Option String) (silent : Bool) :
    close (mapCOO b s) idArg silent
      = (mapCOO b (close s idArg silent).1, (close s idArg silent).2.1,
         (close s idArg silent).2.2) := by
  unfold close
  have hsc : (idArg.orElse fun _ => (mapCOO b s).activeModal)
      = (idArg.orElse fun _ => s.activeModal) := rfl
  rw [hsc]
  cases ho : idArg.orElse fun _ => s.activeModal with
  | none => rfl
  | some modalId =>
    dsimp only
    have hm : (mapCOO b s).modals = s.modals.map fun p => (p.1, setCOO b p.2) := rfl
    rw [hm, mget_mapCOO]
    cases hg : mget s.modals modalId with
    | none => rfl
    | some m =>
      simp only [Option.map_some]
      rcases hb : m.opts.beforeClose with _ | bv
      · simp [setCOO_beforeClose, hb, mapCOO,
          mupd_mapCOO b s.modals modalId dropShow fun r => rfl]
      · cases bv <;> cases silent <;>
          simp [setCOO_beforeClose, hb, mapCOO,
            mupd_mapCOO b s.modals modalId dropShow fun r => rfl]

/-- open never consults the stored closeOnOverlay. -/
theorem openCall_mapCOO (b : Bool) (s : MState) (id : String) (d : Option Nat) :
    openCall (mapCOO b s) id d
      = (mapCOO b (openCall s id d).1, (openCall s id d).2.1, (openCall s id d).2.2) := by
  unfold openCall
  simp only [mapCOO_sequential, mapCOO_activeModal, mapCOO_modals, mget_mapCOO]
  by_cases hb : (s.sequential && s.activeModal.isSome) = true
  · rw [if_pos hb, if_pos hb]
    simp [mapCOO]
  · rw [if_neg hb, if_neg hb]
    cases hg : mget s.modals id with
    | none => simp [hg]
    | some m =>
      simp only [hg, Option.map_some']
      cases ha : s.activeModal with
      | none =>
        dsimp only
        cases hbs : s.bodyScrollLock <;>
          simp [hbs, mapCOO, setCOO_hasOnOpen,
            mupd_mapCOO b s.modals id addActive fun r => rfl]
      | some aid =>
        by_cases haid : aid = id
        · simp only [haid, ne_eq, not_true_eq_false, if_false]
          cases hbs : s.bodyScrollLock <;>
            simp [hbs, mapCOO, setCOO_hasOnOpen,
              mupd_mapCOO b s.modals id addActive fun r => rfl]
        · dsimp only
          simp only [ne_eq, haid, not_false_eq_true, if_true]
          rw [close_mapCOO b s (some aid) true]
          dsimp only
          cases hbs : s.bodyScrollLock <;>
            simp [hbs, mapCOO, setCOO_hasOnOpen, mapCOO_bodyScrollLock,
              mupd_mapCOO b (close s (some aid) true).1.modals id addActive fun r => rfl]

theorem mapCOO_closeOnOverlay (b : Bool) (s : MState) :
    (mapCOO b s).closeOnOverlay = s.closeOnOverlay := rfl

/-- The settle phase never consults the stored closeOnOverlay. -/
theorem closeSettle_mapCOO (b : Bool) (s : MState) (id : String) (silent : Bool) :
    closeSettle (mapCOO b s) id silent
      = (mapCOO b (closeSettle s id silent).1, (closeSettle s id silent).2.1,
         (closeSettle s id silent).2.2) := by
  cases hg : mget s.modals id with
  | none =>
    have hgL : mget (mapCOO b s).modals id = none := by
      rw [mapCOO_modals, mget_mapCOO, hg]; rfl
    simp [closeSettle, hgL, hg]
  | some m =>
    have hgL : mget (mapCOO b s).modals id = some (setCOO b m) := by
      rw [mapCOO_modals, mget_mapCOO, hg]; rfl
    rw [closeSettle_shape (mapCOO b s) id silent (setCOO b m) hgL,
        closeSettle_shape s id silent m hg]
    simp only [mapCOO_modals, mapCOO_activeModal, mapCOO_queue, mapCOO_bodyScrollLock,
      mapCOO_overflowHidden, mapCOO_closeOnOverlay, mapCOO_sequential,
      mupd_mapCOO b s.modals id dropActive fun r => rfl,
      any_mapCOO b (mupd s.modals id dropActive), setCOO_hasOnClose]
    cases hq : s.queue with
    | nil => simp [mapCOO]
    | cons x rest =>
      obtain ⟨nid, nd⟩ := x
      dsimp only
      have hoc := openCall_mapCOO b { modals := mupd s.modals id dropActive, activeModal := if s.activeModal = some id then none else s.activeModal, queue := rest, closeOnOverlay := s.closeOnOverlay, bodyScrollLock := s.bodyScrollLock, sequential := s.sequential, overflowHidden := if (s.bodyScrollLock && !(mupd s.modals id dropActive).any fun p => p.2.elem.active) = true then false else s.overflowHidden } nid nd
      exact congrArg (fun r => (r.1,
        (if (!silent && m.opts.hasOnClose) = true then [Ev.onCloseEv id] else []) ++ r.2.1,
        r.2.2)) hoc

/-- closeAll never consults the stored closeOnOverlay. -/
theorem closeAll_mapCOO (b : Bool) (s : MState) :
    closeAll (mapCOO b s)
      = (mapCOO b (closeAll s).1, (closeAll s).2.1, (closeAll s).2.2) := by
  have hfold : ∀ (ids : List String) (accS : MState) (accE : List Ev) (accT : List Task),
      ids.foldl (fun acc id =>
          let r := close acc.1 (some id) true
          (r.1, acc.2.1 ++ r.2.1, acc.2.2 ++ r.2.2))
        (mapCOO b accS, accE, accT)
      = (mapCOO b (ids.foldl (fun acc id =>
            let r := close acc.1 (some id) true
            (r.1, acc.2.1 ++ r.2.1, acc.2.2 ++ r.2.2)) (accS, accE, accT)).1,
         (ids.foldl (fun acc id =>
            let r := close acc.1 (some id) true
            (r.1, acc.2.1 ++ r.2.1, acc.2.2 ++ r.2.2)) (accS, accE, accT)).2.1,
         (ids.foldl (fun acc id =>
            let r := close acc.1 (some id) true
            (r.1, acc.2.1 ++ r.2.1, acc.2.2 ++ r.2.2)) (accS, accE, accT)).2.2) := by
    intro ids
    induction ids with
    | nil => intro accS accE accT; rfl
    | cons i rest ih =>
      intro accS accE accT
      simp only [List.foldl_cons]
      have hstep := congrArg
        (fun r : MState × List Ev × List Task =>
          ((r.1, accE ++ r.2.1, accT ++ r.2.2) : MState × List Ev × List Task))
        (close_mapCOO b accS (some i) true)
      exact (congrArg (fun start => List.foldl (fun acc id =>
          let r := close acc.1 (some id) true
          (r.1, acc.2.1 ++ r.2.1, acc.2.2 ++ r.2.2)) start rest) hstep).trans
        (ih (close accS (some i) true).1
            (accE ++ (close accS (some i) true).2.1)
            (accT ++ (close accS (some i) true).2.2))
  unfold closeAll
  have hids : (mapCOO b s).modals.map Prod.fst = s.modals.map Prod.fst := by
    rw [mapCOO_modals, List.map_map]
    rfl
  rw [hids]
  exact congrArg
    (fun folded : MState × List Ev × List Task =>
      ((({ folded.1 with queue := [] } : MState), folded.2.1, folded.2.2)
        : MState × List Ev × List Task))
    (hfold (s.modals.map Prod.fst) s [] [])

/-- Firing a pending timer never consults the stored closeOnOverlay. -/
theorem runTask_mapCOO (b : Bool) (s : MState) (t : Task) :
    runTask (mapCOO b s) t
      = (mapCOO b (runTask s t).1, (runTask s t).2.1, (runTask s t).2.2) := by
  cases t with
  | showT id =>
    simp [runTask, mapCOO, mupd_mapCOO b s.modals id addShow fun r => rfl]
  | settleT id silent => exact closeSettle_mapCOO b s id silent

/-- C10: the per-record closeOnOverlay option stored at registration
(line 262) is never consulted afterwards.  The wiring of the overlay
click to close (line 272) reads only the overlay handle and the
manager-level flag, identically for every passed option value, and
every subsequent operation commutes with overwriting the stored option
in all records; so passing closeOnOverlay false for an individual
modal has no behavioral effect when the controller-level flag is
true (the overlay stays wired, only the dead stored field differs). -/
theorem closeOnOverlay_unconsulted (s : MState) (b : Bool) (id : String)
    (hasOverlay hasCloseBtn hasOnOpen hasOnClose : Bool) (beforeClose : Option Bool)
    (c1 c2 : Option Bool) (el : Elem) (idArg : Option String) (silent : Bool)
    (d : Option Nat) (t : Task) :
    (register s id hasOverlay hasCloseBtn hasOnOpen hasOnClose beforeClose c1 el).2
      = (register s id hasOverlay hasCloseBtn hasOnOpen hasOnClose beforeClose c2 el).2 ∧
    (register s id hasOverlay hasCloseBtn hasOnOpen hasOnClose beforeClose c1 el).2
      = (hasOverlay && s.closeOnOverlay) ∧
    (s.closeOnOverlay = true → hasOverlay = true →
      (register s id hasOverlay hasCloseBtn hasOnOpen hasOnClose beforeClose
        (some false) el).2 = true ∧
      (mget (register s id hasOverlay hasCloseBtn hasOnOpen hasOnClose beforeClose
        (some false) el).1.modals id).map (fun r => r.opts.closeOnOverlay)
          = some false) ∧
    close (mapCOO b s) idArg silent
      = (mapCOO b (close s idArg silent).1, (close s idArg silent).2.1,
         (close s idArg silent).2.2) ∧
    openCall (mapCOO b s) id d
      = (mapCOO b (openCall s id d).1, (openCall s id d).2.1, (openCall s id d).2.2) ∧
    closeSettle (mapCOO b s) id silent
      = (mapCOO b (closeSettle s id silent).1, (closeSettle s id silent).2.1,
         (closeSettle s id silent).2.2) ∧
    closeAll (mapCOO b s)
      = (mapCOO b (closeAll s).1, (closeAll s).2.1, (closeAll s).2.2) ∧
    runTask (mapCOO b s) t
      = (mapCOO b (runTask s t).1, (runTask s t).2.1, (runTask s t).2.2) := by
  refine ⟨rfl, rfl, ?_, close_mapCOO b s idArg silent, openCall_mapCOO b s id d,
    closeSettle_mapCOO b s id silent, closeAll_mapCOO b s, runTask_mapCOO b s t⟩
  intro hc ho
  constructor
  · simp [register, hc, ho]
  · simp [register, mget_mset, resolveCloseOnOverlay]

theorem closeOnOverlay_unconsulted_witness :
    (register wSeqActive "n" true true false false none (some false) wElem0).2 = true ∧
    (mget (register wSeqActive "n" true true false false none
      (some false) wElem0).1.modals "n").map (fun r => r.opts.closeOnOverlay)
        = some false := by
  have h := closeOnOverlay_unconsulted wSeqActive true "n" true true false false none
    (some false) none wElem0 none false none (Task.showT "n")
  exact h.2.2.1 (by decide) (by decide)

theorem seqInv_transfer (s s2 : MState)
    (ham : s2.activeModal = s.activeModal)
    (hmap : (s2.modals.map fun p => (p.1, p.2.elem.active))
        = (s.modals.map fun p => (p.1, p.2.elem.active)))
    (h : SeqInv s) : SeqInv s2 := by
  intro p hp hact
  have hmem : (p.1, p.2.elem.active) ∈ s2.modals.map (fun p => (p.1, p.2.elem.active)) :=
    List.mem_map_of_mem _ hp
  rw [hmap] at hmem
  obtain ⟨q, hq, he⟩ := List.mem_map.mp hmem
  injection he with h1 h2
  rw [ham, ← h1]
  exact h q hq (h2.trans hact)

/-- The synchronous close phase leaves activeModal, sequential and the
active flags unchanged. -/
theorem close_sync_preserves (s : MState) (idArg : Option String) (silent : Bool) :
    (close s idArg silent).1.activeModal = s.activeModal ∧
    (close s idArg silent).1.sequential = s.sequential ∧
    ((close s idArg silent).1.modals.map fun p => (p.1, p.2.elem.active))
      = (s.modals.map fun p => (p.1, p.2.elem.active)) := by
  unfold close
  cases ho : idArg.orElse fun _ => s.activeModal with
  | none => exact ⟨rfl, rfl, rfl⟩
  | some modalId =>
    dsimp only
    cases hg : mget s.modals modalId with
    | none => exact ⟨rfl, rfl, rfl⟩
    | some m =>
      dsimp only
      split
      · exact ⟨rfl, rfl, rfl⟩
      · exact ⟨rfl, rfl, mupd_map s.modals modalId dropShow _ fun p => rfl⟩

theorem close_seqInv (s : MState) (idArg : Option String) (silent : Bool)
    (h : SeqInv s) : SeqInv (close s idArg silent).1 := by
  obtain ⟨h1, -, h3⟩ := close_sync_preserves s idArg silent
  exact seqInv_transfer s _ h1 h3 h

theorem openCall_seqInv (s : MState) (id : String) (d : Option Nat)
    (hseq : s.sequential = true) (h : SeqInv s) : SeqInv (openCall s id d).1 := by
  by_cases hb : s.activeModal.isSome = true
  · rw [openCall_queues s id d hseq hb]
    intro p hp ha
    exact h p hp ha
  · have hnone : s.activeModal = none := by
      cases hs : s.activeModal
      · rfl
      · rw [hs] at hb; simp at hb
    cases hg : mget s.modals id with
    | none =>
      rw [openCall_unknown s id d (by simp [hb]) hg]
      exact h
    | some m =>
      rw [openCall_fresh s id d m hnone hg]
      intro p hp ha
      obtain ⟨q, hq, he⟩ := List.mem_map.mp hp
      show some id = some p.1
      by_cases hk : q.1 = id
      · rw [if_pos hk] at he
        rw [← he] at ha ⊢
        rw [hk]
      · rw [if_neg hk] at he
        rw [← he] at ha
        have := h q hq ha
        rw [hnone] at this
        cases this

/-- The active-class discipline after dropping the active class of id
in the settle phase: any remaining active entry is still the one the
settled activeModal points at. -/
theorem seqInv_dropActive (s : MState) (id : String) (h : SeqInv s) :
    ∀ p ∈ mupd s.modals id dropActive, p.2.elem.active = true →
      (if s.activeModal = some id then none else s.activeModal) = some p.1 := by
  intro p hp ha
  obtain ⟨q, hq, he⟩ := List.mem_map.mp hp
  by_cases hk : q.1 = id
  · rw [if_pos hk] at he
    rw [← he] at ha
    cases ha
  · rw [if_neg hk] at he
    rw [← he] at ha ⊢
    have hact := h q hq ha
    rw [if_neg (by rw [hact]; intro hcon; exact hk (Option.some.inj hcon))]
    exact hact

theorem closeSettle_seqInv (s : MState) (id : String) (silent : Bool)
    (hseq : s.sequential = true) (h : SeqInv s) : SeqInv (closeSettle s id silent).1 := by
  cases hg : mget s.modals id with
  | none =>
    have : closeSettle s id silent = (s, [], []) := by
      simp [closeSettle, hg]
    rw [this]
    exact h
  | some m =>
    rw [closeSettle_shape s id silent m hg]
    cases hq : s.queue with
    | nil =>
      intro p hp ha
      exact seqInv_dropActive s id h p hp ha
    | cons x rest =>
      obtain ⟨nid, nd⟩ := x
      dsimp only
      apply openCall_seqInv
      · exact hseq
      · intro p hp ha
        exact seqInv_dropActive s id h p hp ha

theorem openCall_sequential (s : MState) (id : String) (d : Option Nat) :
    (openCall s id d).1.sequential = s.sequential := by
  unfold openCall
  by_cases hb : (s.sequential && s.activeModal.isSome) = true
  · rw [if_pos hb]
  · rw [if_neg hb]
    cases hg : mget s.modals id with
    | none => rfl
    | some m =>
      dsimp only
      cases ha : s.activeModal with
      | none => split <;> rfl
      | some aid =>
        by_cases haid : aid = id
        · simp only [haid, ne_eq, not_true_eq_false, if_false]
          split <;> rfl
        · simp only [ne_eq, haid, not_false_eq_true, if_true]
          split
          · exact (close_sync_preserves s (some aid) true).2.1
          · exact (close_sync_preserves s (some aid) true).2.1

theorem closeSettle_sequential (s : MState) (id : String) (silent : Bool) :
    (closeSettle s id silent).1.sequential = s.sequential := by
  cases hg : mget s.modals id with
  | none => simp [closeSettle, hg]
  | some m =>
    rw [closeSettle_shape s id silent m hg]
    cases hq : s.queue with
    | nil => rfl
    | cons x rest =>
      obtain ⟨nid, nd⟩ := x
      dsimp only
      exact openCall_sequential _ nid nd

theorem runTask_seqInv (s : MState) (t : Task)
    (hseq : s.sequential = true) (h : SeqInv s) :
    SeqInv (runTask s t).1 ∧ (runTask s t).1.sequential = true := by
  cases t with
  | showT id =>
    constructor
    · exact seqInv_transfer s _ rfl (mupd_map s.modals id addShow _ fun p => rfl) h
    · exact hseq
  | settleT id silent =>
    exact ⟨closeSettle_seqInv s id silent hseq h,
      (closeSettle_sequential s id silent).trans hseq⟩

theorem step_inv (σ σ2 : Sys) (hstep : Step σ σ2) (h : SysInv σ) : SysInv σ2 := by
  obtain ⟨hseq, hinv⟩ := h
  cases hstep with
  | callOpen id d =>
    exact ⟨(openCall_sequential σ.st id d).trans hseq, openCall_seqInv σ.st id d hseq hinv⟩
  | callClose idArg silent =>
    exact ⟨((close_sync_preserves σ.st idArg silent).2.1).trans hseq,
      close_seqInv σ.st idArg silent hinv⟩
  | fire t l1 l2 hp =>
    obtain ⟨h1, h2⟩ := runTask_seqInv σ.st t hseq hinv
    exact ⟨h2, h1⟩

theorem reach_inv (σ0 σ : Sys) (h0 : SysInv σ0) (hr : Reach σ0 σ) : SysInv σ := by
  induction hr with
  | refl => exact h0
  | tail hsteps hstep ih => exact step_inv _ _ hstep ih

/-- C1: under sequential = true, along any sequence of open and close
calls and timer firings from an initial controller, at most one
registered id carries the active presentation flag - in particular in
every quiescent state (all settle delays resolved) no two distinct ids
are both Open. -/
theorem seq_atMostOne_open (σ0 σ : Sys) (h0 : InitSys σ0)
    (hseq : σ0.st.sequential = true) (hr : Reach σ0 σ) ( _hq : Quiescent σ = true)
    (p q : String × ModalRec) (hp : p ∈ σ.st.modals) (hq2 : q ∈ σ.st.modals)
    (hpa : p.2.elem.active = true) (hqa : q.2.elem.active = true) : p.1 = q.1 := by
  have hinv0 : SeqInv σ0.st := by
    intro r hrm hact
    rw [h0.2.2.2 r hrm] at hact
    cases hact
  have hinv := reach_inv σ0 σ ⟨hseq, hinv0⟩ hr
  have h1 := hinv.2 p hp hpa
  have h2 := hinv.2 q hq2 hqa
  exact Option.some.inj (h1.symm.trans h2)

theorem seq_atMostOne_open_witness : "a" = "a" := by
  have h1 : Step wSys0 wSys1 := by
    have hs := Step.callOpen wSys0 "a" none
    have he : (⟨(openCall wSys0.st "a" none).1,
        wSys0.pending ++ (openCall wSys0.st "a" none).2.2⟩ : Sys) = wSys1 := by decide
    rwa [he] at hs
  have h2 : Step wSys1 wSys2 := by
    have hs := Step.fire wSys1 (Task.showT "a") [] [] (by decide)
    have he : (⟨(runTask wSys1.st (Task.showT "a")).1,
        (([] : List Task) ++ []) ++ (runTask wSys1.st (Task.showT "a")).2.2⟩ : Sys)
          = wSys2 := by decide
    rwa [he] at hs
  exact seq_atMostOne_open wSys0 wSys2 (by refine ⟨rfl, rfl, rfl, ?_⟩; decide) rfl
    (Relation.ReflTransGen.tail (Relation.ReflTransGen.single h1) h2) (by decide)
    ("a", ⟨⟨true, true, true⟩, false, false, ⟨false, false, none, false⟩⟩)
    ("a", ⟨⟨true, true, true⟩, false, false, ⟨false, false, none, false⟩⟩)
    (by decide) (by decide) (by decide) (by decide)

end Royal
